import Mathlib

/-!
Shallow embedding of the core logic of `src/excel.py` (repository
`students_excel`): the name normalizer (`reformat_names`), the pairing
engine (`random_pairings`) and duplicate detection (`check_duplicates`).
Spreadsheet I/O is out of scope: the embedded functions consume the
in-memory sequences the Python code extracts from the workbook.
-/

namespace StudentsExcel

/-! ## Python string primitives

Python strings are modelled as Lean `String`s; `str.split(",")` and
`str.strip` are implemented directly over the underlying character list
so that every definition reduces in the kernel. -/

/-- Embedding of Python `s.split(",")` on the character list: splitting on a
single-character separator, keeping empty fields, never returning an empty
list (`"".split(",") == [""]`). -/
def splitOnComma : List Char → List (List Char)
  | [] => [[]]
  | c :: rest =>
    if c = ',' then [] :: splitOnComma rest
    else
      match splitOnComma rest with
      | t :: ts => (c :: t) :: ts
      | [] => [[c]]

/-- Embedding of Python `s.strip()` on the character list: drop leading and
trailing whitespace characters. -/
def stripChars (cs : List Char) : List Char :=
  ((cs.dropWhile Char.isWhitespace).reverse.dropWhile Char.isWhitespace).reverse

/-- Python `s.strip()` as a `String` operation. -/
def pyStrip (s : String) : String := String.mk (stripChars s.data)

/-- Python `s.split(",")` as a `String` operation. -/
def pySplitComma (s : String) : List String := (splitOnComma s.data).map String.mk

/-! ## Name normalizer (`reformat_names`, src/excel.py lines 37-73) -/

/-- Error taxonomy of the normalizer, named as in the specification.
`malformedName` stands for the `IndexError` the Python loop raises when
`split_name[1]` does not exist; `countMismatch` for the `ValueError`
raised when the validation of the expected count fails. -/
inductive NormErr
  | malformedName
  | countMismatch
deriving DecidableEq

/-- One iteration of the reformatting loop (src/excel.py lines 61-64):
`split_name = list(map(str.strip, name.split(",")))` followed by
`split_name[1] + ' ' + split_name[0]`. `none` models the `IndexError`
raised when fewer than two comma-separated tokens are found; tokens past
the second are ignored, exactly as the indexing does. -/
def reformatName (raw : String) : Option String :=
  match (pySplitComma raw).map pyStrip with
  | t0 :: t1 :: _ => some (t1 ++ " " ++ t0)
  | _ => none

/-- The whole reformatting loop: processes the entries in order, stopping at
the first entry on which the loop body raises. -/
def reformatAll : List String → Option (List String)
  | [] => some []
  | r :: rs =>
    match reformatName r, reformatAll rs with
    | some n, some ns => some (n :: ns)
    | _, _ => none

/-- Reformatting plus count validation (src/excel.py lines 61-71): after
the loop, `len(names) != num_students` raises, otherwise the list is
returned. -/
def reformat_names_core (raws : List String) (num_students : Nat) :
    Except NormErr (List String) :=
  match reformatAll raws with
  | none => Except.error NormErr.malformedName
  | some names =>
    if names.length = num_students then Except.ok names
    else Except.error NormErr.countMismatch

/-- The full `reformat_names` on the first column read from the sheet
(src/excel.py lines 54-73): `iloc[1:-1, 0]` drops the first and last rows
of the data read, each cell is stripped (`map(str.strip, ...)`, line 58),
then the reformatting loop and the count check run. Cells are modelled as
strings, as the code assumes. -/
def reformat_names (column : List String) (num_students : Nat) :
    Except NormErr (List String) :=
  reformat_names_core (((column.drop 1).dropLast).map pyStrip) num_students

/-- Normalization as the specification words it: the text before the comma
is the last name, the text after it the first name, both stripped, output
`"First Last"`. Used only to compare `reformatName` against the spec. -/
def specFirstLast (raw : String) : String :=
  pyStrip (String.mk ((raw.data.dropWhile (fun c => !(c == ','))).drop 1)) ++ " " ++
    pyStrip (String.mk (raw.data.takeWhile (fun c => !(c == ','))))

/-! ## Pairing engine (`random_pairings`, src/excel.py lines 91-111)

The function pads an odd-sized roster with one empty string
(`np.append(names, "")`, a copying operation), shuffles the (possibly
padded) array in place (`np.random.shuffle`) and reshapes it into
consecutive pairs (`names.reshape(-1, 2)`). Randomness is modelled by
quantifying over every permutation of the padded roster. -/

/-- The padding step (src/excel.py lines 99-103): append one empty string
when the roster size is odd. -/
def pad (names : List String) : List String :=
  if names.length % 2 ≠ 0 then names ++ [""] else names

/-- Consecutive non-overlapping pairs, row-major, as `reshape(-1, 2)`
produces them: positions (0,1), (2,3), ... -/
def chunkPairs : List String → List (String × String)
  | a :: b :: rest => (a, b) :: chunkPairs rest
  | [_] => []
  | [] => []

/-- Error space of the pairing engine. `numpy.reshape(-1, 2)` raises when
the array size is not divisible by two; that is the only way the Python
function can fail, and padding makes it unreachable. -/
inductive PairingErr
  | reshapeError
deriving DecidableEq

/-- The pairing step applied to the shuffled padded array (src/excel.py
lines 105-111): reshape into pairs, failing as `numpy` would on an
odd-sized array. -/
def random_pairings (shuffled : List String) :
    Except PairingErr (List (String × String)) :=
  if shuffled.length % 2 = 0 then Except.ok (chunkPairs shuffled)
  else Except.error PairingErr.reshapeError

/-- `random_pairings` with the caller's array state made explicit. On an
odd-sized roster `np.append` allocates a fresh array, so the in-place
shuffle leaves the caller's array untouched; on an even-sized roster
`np.random.shuffle` permutes the caller's array itself. The second
component is the caller's array after the call. -/
def random_pairings_st (names shuffled : List String) :
    Except PairingErr (List (String × String)) × List String :=
  if names.length % 2 ≠ 0 then (random_pairings shuffled, names)
  else (random_pairings shuffled, shuffled)

/-- The multiset of names covered by a round, in order of appearance. -/
def pairsNames (ps : List (String × String)) : List String :=
  ps.flatMap (fun p => [p.1, p.2])

/-! ## Duplicate detection (`check_duplicates`, src/excel.py lines 113-160)

The workbook contents are modelled as an association list from sheet name
to that sheet's rounds: the first and second column of each sheet, already
zipped into pairs of strings (the `fillna("")` of line 126 makes blank
cells empty strings before the code runs). -/

/-- Error taxonomy of duplicate detection, named as in the specification:
`insufficientRounds` is the `ValueError` of line 130, `unknownRound` the
`NameError` of line 134 with the offending sheet name. -/
inductive DupErr
  | insufficientRounds
  | unknownRound (sheet : String)
deriving DecidableEq

/-- Python `set(p) == set(q)` for 2-tuples `p`, `q` of names: the two
unordered pairs are equal exactly when the tuples agree componentwise or
crosswise (also correct when a tuple repeats a name, since then both
disjuncts force the other set to collapse to the same singleton). -/
def sameSet (p q : String × String) : Bool :=
  (p.1 == q.1 && p.2 == q.2) || (p.1 == q.2 && p.2 == q.1)

/-- The core comparison (src/excel.py lines 145-151): keep every pairing of
the first round whose unordered set of names occurs among the second
round's pairings, representing each reported pair by the first round's
tuple. -/
def commonPairs (r1 r2 : List (String × String)) : List (String × String) :=
  r1.filter (fun p => r2.any (fun q => sameSet p q))

/-- The `str.strip` applied to both columns before zipping (src/excel.py
lines 140-143). -/
def stripPairs (r : List (String × String)) : List (String × String) :=
  r.map (fun p => (pyStrip p.1, pyStrip p.2))

/-- Dictionary access `data[sheet]`, modelled on the association list; the
code only calls it on keys it has validated. -/
def lookupRound (data : List (String × List (String × String))) (s : String) :
    List (String × String) :=
  match data.find? (fun kv => kv.1 == s) with
  | some kv => kv.2
  | none => []

/-- The double loop of src/excel.py lines 136-158: for every ordered
combination `i < j` of requested sheets, emit the two sheet names and
their list of common pairs. -/
def comparePass (data : List (String × List (String × String))) :
    List String → List (String × String × List (String × String))
  | [] => []
  | s :: rest =>
    rest.map (fun t =>
      (s, t, commonPairs (stripPairs (lookupRound data s))
               (stripPairs (lookupRound data t))))
      ++ comparePass data rest

/-- `check_duplicates` (src/excel.py lines 113-160): reject fewer than two
sheets, then reject the first requested sheet missing from the workbook,
then run every pairwise comparison. -/
def check_duplicates (data : List (String × List (String × String)))
    (sheet_list : List String) :
    Except DupErr (List (String × String × List (String × String))) :=
  if sheet_list.length < 2 then Except.error DupErr.insufficientRounds
  else
    match sheet_list.find? (fun s => !(data.any (fun kv => kv.1 == s))) with
    | some s => Except.error (DupErr.unknownRound s)
    | none => Except.ok (comparePass data sheet_list)

/-! ## Helper lemmas about the string primitives -/

/-- Splitting a comma-free character list yields the list itself as the
single field. -/
theorem splitOnComma_no_comma : ∀ cs : List Char, cs.count ',' = 0 →
    splitOnComma cs = [cs]
  | [], _ => rfl
  | c :: rest, h => by
    have hc : ¬ c = ',' := by
      intro hc
      rw [List.count_cons, hc] at h
      simp at h
    have hr : rest.count ',' = 0 := by
      rw [List.count_cons] at h
      omega
    unfold splitOnComma
    rw [if_neg hc, splitOnComma_no_comma rest hr]

/-- Splitting produces one more field than there are commas. -/
theorem splitOnComma_length : ∀ cs : List Char,
    (splitOnComma cs).length = cs.count ',' + 1
  | [] => rfl
  | c :: rest => by
    have ih := splitOnComma_length rest
    by_cases hc : c = ','
    · unfold splitOnComma
      rw [if_pos hc, List.count_cons, hc]
      simp [ih]
    · unfold splitOnComma
      rw [if_neg hc]
      have hbeq : (c == ',') = false := by simp [hc]
      cases hsp : splitOnComma rest with
      | nil => rw [hsp] at ih; simp at ih
      | cons t ts =>
        rw [hsp] at ih
        simp only [List.length_cons] at ih ⊢
        rw [List.count_cons, hbeq]
        simpa using ih

/-- With exactly one comma, splitting yields the prefix before the comma
and the suffix after it. -/
theorem splitOnComma_one_comma : ∀ cs : List Char, cs.count ',' = 1 →
    splitOnComma cs =
      [cs.takeWhile (fun c => !(c == ',')),
       (cs.dropWhile (fun c => !(c == ','))).drop 1]
  | [], h => by simp at h
  | c :: rest, h => by
    by_cases hc : c = ','
    · subst hc
      have hr : rest.count ',' = 0 := by
        rw [List.count_cons] at h
        simp at h
        omega
      unfold splitOnComma
      rw [if_pos rfl, splitOnComma_no_comma rest hr]
      simp [List.takeWhile_cons, List.dropWhile_cons]
    · have hbeq : (c == ',') = false := by simp [hc]
      have hr : rest.count ',' = 1 := by
        rw [List.count_cons, hbeq] at h
        simpa using h
      have ih := splitOnComma_one_comma rest hr
      unfold splitOnComma
      rw [if_neg hc, ih]
      simp [List.takeWhile_cons, List.dropWhile_cons, hbeq]

/-- Dropping a whitespace prefix does not change the number of commas. -/
theorem count_comma_dropWhile_ws : ∀ cs : List Char,
    (cs.dropWhile Char.isWhitespace).count ',' = cs.count ','
  | [] => rfl
  | c :: rest => by
    by_cases hw : c.isWhitespace
    · have hbeq : (c == ',') = false := by
        have : ¬ c = ',' := by
          intro hc
          rw [hc] at hw
          exact absurd hw (by decide)
        simp [this]
      rw [List.dropWhile_cons]
      simp only [hw, if_true]
      rw [count_comma_dropWhile_ws rest, List.count_cons, hbeq]
      simp
    · rw [List.dropWhile_cons]
      simp [hw]

/-- Stripping whitespace does not change the number of commas. -/
theorem count_comma_pyStrip (s : String) :
    (pyStrip s).data.count ',' = s.data.count ',' := by
  show (stripChars s.data).count ',' = s.data.count ','
  unfold stripChars
  rw [List.count_reverse, count_comma_dropWhile_ws, List.count_reverse,
    count_comma_dropWhile_ws]

/-- On an entry with exactly one comma the loop body succeeds and produces
exactly the string the specification describes: stripped first name,
space, stripped last name. -/
theorem reformatName_one_comma (raw : String) (h : raw.data.count ',' = 1) :
    reformatName raw = some (specFirstLast raw) := by
  unfold reformatName pySplitComma
  rw [splitOnComma_one_comma raw.data h]
  rfl

/-- The whole loop succeeds on a list of entries that each carry exactly
one comma, returning the spec-described normalization in input order. -/
theorem reformatAll_wellformed : ∀ raws : List String,
    (∀ r ∈ raws, r.data.count ',' = 1) →
    reformatAll raws = some (raws.map specFirstLast)
  | [], _ => rfl
  | r :: rs, h => by
    have hr := h r (List.mem_cons_self r rs)
    have hrs : ∀ x ∈ rs, x.data.count ',' = 1 := fun x hx =>
      h x (List.mem_cons_of_mem r hx)
    unfold reformatAll
    rw [reformatName_one_comma r hr, reformatAll_wellformed rs hrs]
    rfl

/-! ## Helper lemmas about the pairing engine -/

/-- Padding is the identity on even-sized rosters. -/
theorem pad_even (names : List String) (h : names.length % 2 = 0) :
    pad names = names := by
  unfold pad
  rw [if_neg]
  omega

/-- Padding appends exactly one placeholder on odd-sized rosters. -/
theorem pad_odd (names : List String) (h : names.length % 2 = 1) :
    pad names = names ++ [""] := by
  unfold pad
  rw [if_pos]
  omega

/-- The padded roster always has even length. -/
theorem pad_length_even (names : List String) : (pad names).length % 2 = 0 := by
  unfold pad
  by_cases h : names.length % 2 = 0
  · rw [if_neg (by omega)]
    exact h
  · rw [if_pos (by omega), List.length_append]
    simp
    omega

/-- Flattening the consecutive pairs of an even-length list recovers the
list. -/
theorem pairsNames_chunkPairs : ∀ l : List String, l.length % 2 = 0 →
    pairsNames (chunkPairs l) = l
  | [], _ => rfl
  | [a], h => by simp at h
  | a :: b :: rest, h => by
    have hr : rest.length % 2 = 0 := by
      simp only [List.length_cons] at h
      omega
    show a :: b :: pairsNames (chunkPairs rest) = a :: b :: rest
    rw [pairsNames_chunkPairs rest hr]

/-- Chunking yields half as many pairs as there are elements. -/
theorem chunkPairs_length : ∀ l : List String,
    (chunkPairs l).length = l.length / 2
  | [] => rfl
  | [a] => by
    show (List.length [] : Nat) = 1 / 2
    rfl
  | a :: b :: rest => by
    show (chunkPairs rest).length + 1 = (rest.length + 1 + 1) / 2
    rw [chunkPairs_length rest]
    omega

/-- A pair of the round contains the placeholder when either slot is the
empty string. -/
def hasPlaceholder (p : String × String) : Bool := p.1 == "" || p.2 == ""

/-- A list without the empty string chunks into pairs none of which
contains the placeholder. -/
theorem chunkPairs_countP_zero : ∀ l : List String, l.count "" = 0 →
    (chunkPairs l).countP hasPlaceholder = 0
  | [], _ => rfl
  | [a], _ => rfl
  | a :: b :: rest, h => by
    rw [List.count_cons, List.count_cons] at h
    cases hab : a == "" <;> cases hbb : b == "" <;>
      rw [hab, hbb] at h <;> simp at h
    have hrest : rest.count "" = 0 := by omega
    show ((a, b) :: chunkPairs rest).countP hasPlaceholder = 0
    rw [List.countP_cons]
    have hp : hasPlaceholder (a, b) = false := by
      unfold hasPlaceholder
      rw [hab, hbb]
      rfl
    rw [hp, chunkPairs_countP_zero rest hrest]
    rfl

/-- An even-length list holding the empty string exactly once chunks into
pairs exactly one of which contains the placeholder. -/
theorem chunkPairs_countP_one : ∀ l : List String, l.length % 2 = 0 →
    l.count "" = 1 → (chunkPairs l).countP hasPlaceholder = 1
  | [], _, h => by simp at h
  | [a], he, _ => by simp at he
  | a :: b :: rest, he, h => by
    have hrest_even : rest.length % 2 = 0 := by
      simp only [List.length_cons] at he
      omega
    rw [List.count_cons, List.count_cons] at h
    show ((a, b) :: chunkPairs rest).countP hasPlaceholder = 1
    rw [List.countP_cons]
    cases hab : a == "" <;> cases hbb : b == "" <;>
        rw [hab, hbb] at h <;> simp at h
    · -- neither slot is the placeholder: the placeholder sits in the rest
      have hrest : rest.count "" = 1 := by omega
      have hp : hasPlaceholder (a, b) = false := by
        unfold hasPlaceholder
        rw [hab, hbb]
        rfl
      rw [hp, chunkPairs_countP_one rest hrest_even hrest]
      rfl
    all_goals
      have hrest : rest.count "" = 0 := by omega
    all_goals
      have hp : hasPlaceholder (a, b) = true := by
        unfold hasPlaceholder
        rw [hab, hbb]
        rfl
    all_goals
      rw [hp, chunkPairs_countP_zero rest hrest]
      rfl

/-! ## Claim theorems -/

/-- C1: for every non-empty roster of N names and every shuffle of the
padded roster, `random_pairings` produces a round of exactly
ceil(N/2) = (N+1)/2 pairings; when N is even the multiset of names across
the pairings equals the roster, and when N is odd it equals the roster
plus exactly one empty-string placeholder, with exactly one pairing
containing that placeholder. -/
theorem random_pairings_round_spec (names shuffled : List String)
    (hne : names ≠ []) (hperm : shuffled.Perm (pad names)) :
    random_pairings shuffled = Except.ok (chunkPairs shuffled) ∧
    (chunkPairs shuffled).length = (names.length + 1) / 2 ∧
    (names.length % 2 = 0 → (pairsNames (chunkPairs shuffled)).Perm names) ∧
    (names.length % 2 = 1 →
      (pairsNames (chunkPairs shuffled)).Perm (names ++ [""]) ∧
      ("" ∉ names → (chunkPairs shuffled).countP hasPlaceholder = 1)) := by
  have hlen := hperm.length_eq
  have heven : shuffled.length % 2 = 0 := by
    rw [hlen]
    exact pad_length_even names
  have hflat : pairsNames (chunkPairs shuffled) = shuffled :=
    pairsNames_chunkPairs shuffled heven
  refine ⟨?_, ?_, ?_, ?_⟩
  · unfold random_pairings
    rw [if_pos heven]
  · rw [chunkPairs_length, hlen]
    unfold pad
    by_cases h : names.length % 2 = 0
    · rw [if_neg (by omega)]
      omega
    · rw [if_pos (by omega), List.length_append]
      simp
  · intro h
    rw [hflat]
    exact pad_even names h ▸ hperm
  · intro h
    refine ⟨?_, ?_⟩
    · rw [hflat]
      exact pad_odd names h ▸ hperm
    · intro hnm
      apply chunkPairs_countP_one shuffled heven
      have hc := hperm.count_eq ""
      rw [pad_odd names h, List.count_append] at hc
      have hz : names.count "" = 0 := by
        rw [List.count_eq_zero]
        exact hnm
      rw [hc, hz]
      rfl

/-- Witness for C1 at the odd roster ["A","B","C"] with the shuffle
["C","","A","B"] of its padding. -/
theorem random_pairings_round_spec_witness :
    (["A","B","C"] : List String) ≠ [] ∧
    (["C","","A","B"] : List String).Perm (pad ["A","B","C"]) ∧
    (chunkPairs ["C","","A","B"]).length = (List.length ["A","B","C"] + 1) / 2 :=
  ⟨by decide, by decide,
    (random_pairings_round_spec ["A","B","C"] ["C","","A","B"]
      (by decide) (by decide)).2.1⟩

/-- C7 counterexample: on the empty roster the code pads nothing, shuffles
the empty array and returns the empty round; it does not fail (the only
conceivable failure, the reshape error, is not raised). -/
theorem random_pairings_empty_roster_cex :
    pad [] = [] ∧
    random_pairings [] = Except.ok [] ∧
    random_pairings [] ≠ Except.error PairingErr.reshapeError :=
  ⟨rfl, rfl, fun h => Except.noConfusion h⟩

/-- C7 amended: requested on a roster of zero names, `random_pairings`
returns an empty round (no pairings) and leaves the caller's array empty;
no error of any kind is raised. -/
theorem random_pairings_empty_roster :
    random_pairings_st [] [] = (Except.ok [], []) := rfl

/-- C9 counterexample: on the even-sized roster ["A","B"], the in-place
shuffle can leave the caller's array in the order ["B","A"], different
from the input order. -/
theorem random_pairings_inplace_shuffle_cex :
    (["B","A"] : List String).Perm (pad ["A","B"]) ∧
    (random_pairings_st ["A","B"] ["B","A"]).2 ≠ ["A","B"] :=
  ⟨by decide, by decide⟩

/-- C9 amended: `random_pairings` leaves the caller's array untouched on
odd-sized rosters (where `np.append` copies before the in-place shuffle),
while on even-sized rosters the shuffle permutes the caller's array in
place, preserving its multiset of elements but not necessarily their
order; the returned round is computed from the shuffled array in either
case. -/
theorem random_pairings_st_frame (names shuffled : List String)
    (hperm : shuffled.Perm (pad names)) :
    (names.length % 2 = 1 → (random_pairings_st names shuffled).2 = names) ∧
    (names.length % 2 = 0 → (random_pairings_st names shuffled).2.Perm names) ∧
    (random_pairings_st names shuffled).1 = random_pairings shuffled := by
  unfold random_pairings_st
  by_cases h : names.length % 2 = 0
  · rw [if_neg (by omega)]
    exact ⟨fun hodd => by omega, fun _ => pad_even names h ▸ hperm, rfl⟩
  · rw [if_pos (by omega)]
    exact ⟨fun _ => rfl, fun heven => absurd heven h, rfl⟩

/-- Witness for C9 (amended) at the odd roster ["A"] with the shuffle
["A",""] of its padding: the caller's array is unchanged. -/
theorem random_pairings_st_frame_witness :
    (["A",""] : List String).Perm (pad ["A"]) ∧
    (random_pairings_st ["A"] ["A",""]).2 = ["A"] :=
  ⟨by decide,
    (random_pairings_st_frame ["A"] ["A",""] (by decide)).1 (by decide)⟩

/-- C3: on a sequence of raw strings each containing exactly one comma
whose length equals the expected count, the name normalizer succeeds and
produces, in the same relative order, the "First Last" form of each entry
with the whitespace stripped from both components; in particular
["Doe, Jane", "Smith, Bob"] with expected count 2 normalizes to
["Jane Doe", "Bob Smith"]. -/
theorem reformat_names_core_wellformed (raws : List String) (n : Nat)
    (hlen : raws.length = n) (hwf : ∀ r ∈ raws, r.data.count ',' = 1) :
    reformat_names_core raws n = Except.ok (raws.map specFirstLast) ∧
    reformat_names_core ["Doe, Jane", "Smith, Bob"] 2 =
      Except.ok ["Jane Doe", "Bob Smith"] := by
  refine ⟨?_, rfl⟩
  unfold reformat_names_core
  rw [reformatAll_wellformed raws hwf]
  show (if (raws.map specFirstLast).length = n then
      Except.ok (raws.map specFirstLast)
    else Except.error NormErr.countMismatch) = Except.ok (raws.map specFirstLast)
  rw [List.length_map, hlen, if_pos rfl]

/-- Witness for C3 at the scenario input. -/
theorem reformat_names_core_wellformed_witness :
    (["Doe, Jane", "Smith, Bob"] : List String).length = 2 ∧
    reformat_names_core ["Doe, Jane", "Smith, Bob"] 2 =
      Except.ok (["Doe, Jane", "Smith, Bob"].map specFirstLast) :=
  ⟨rfl, (reformat_names_core_wellformed ["Doe, Jane", "Smith, Bob"] 2
    rfl (by decide)).1⟩

/-- C5: the normalizer fails with the count-mismatch error exactly when
the reformatting loop completed and produced a list whose length differs
from the expected count; when the lengths agree it returns that list
without error. -/
theorem reformat_names_core_count_check (raws : List String) (n : Nat) :
    (reformat_names_core raws n = Except.error NormErr.countMismatch ↔
      ∃ names, reformatAll raws = some names ∧ names.length ≠ n) ∧
    (∀ names, reformatAll raws = some names → names.length = n →
      reformat_names_core raws n = Except.ok names) := by
  unfold reformat_names_core
  cases h : reformatAll raws with
  | none => simp [h]
  | some names =>
    by_cases hl : names.length = n <;> simp [h, hl]

/-- Witness for C5: one well-formed entry against an expected count of
two fails with the count-mismatch error. -/
theorem reformat_names_core_count_check_witness :
    reformat_names_core ["Doe, Jane"] 2 = Except.error NormErr.countMismatch :=
  (reformat_names_core_count_check ["Doe, Jane"] 2).1.mpr
    ⟨["Jane Doe"], rfl, by decide⟩

/-- C6 counterexample: the entry "Smith, Bob, Jr" splits into three
comma-separated tokens, yet the normalizer does not fail on it: the first
two tokens are used and the rest ignored, producing "Bob Smith". -/
theorem reformat_extra_commas_cex :
    ("Smith, Bob, Jr" : String).data.count ',' = 2 ∧
    reformat_names_core ["Smith, Bob, Jr"] 1 = Except.ok ["Bob Smith"] :=
  ⟨by decide, rfl⟩

/-- C6 amended: an entry with no comma (fewer than two comma-separated
tokens) makes the loop body fail (the IndexError standing for
MalformedNameError); an entry with one or more commas never fails — with
more than one comma the tokens past the second are silently ignored. -/
theorem reformatName_token_cases (raw : String) :
    (raw.data.count ',' = 0 → reformatName raw = none) ∧
    (0 < raw.data.count ',' → ∃ s, reformatName raw = some s) := by
  constructor
  · intro h
    unfold reformatName pySplitComma
    rw [splitOnComma_no_comma raw.data h]
    rfl
  · intro h
    unfold reformatName pySplitComma
    have hlen : (splitOnComma raw.data).length = raw.data.count ',' + 1 :=
      splitOnComma_length raw.data
    cases hsp : splitOnComma raw.data with
    | nil =>
      rw [hsp] at hlen
      simp at hlen
    | cons t ts =>
      cases ts with
      | nil =>
        rw [hsp] at hlen
        simp at hlen
        omega
      | cons t1 ts1 =>
        exact ⟨_, rfl⟩

/-- Witness for C6 (amended): "NoComma" fails, "Smith, Bob, Jr" does
not. -/
theorem reformatName_token_cases_witness :
    reformatName "NoComma" = none ∧
    ∃ s, reformatName "Smith, Bob, Jr" = some s :=
  ⟨(reformatName_token_cases "NoComma").1 (by decide),
    (reformatName_token_cases "Smith, Bob, Jr").2 (by decide)⟩

/-- C10: `reformat_names` normalizes only the middle rows of the first
column it reads — the first and last entries are unconditionally
discarded — so a column of K entries (K at least 2, middles well-formed)
yields exactly K-2 normalized names, and the expected count is compared
against K-2: the call succeeds exactly when the caller expected K-2
names, and fails with the count-mismatch error otherwise. -/
theorem reformat_names_row_slicing (column : List String) (n : Nat)
    (hk : 2 ≤ column.length)
    (hwf : ∀ r ∈ (column.drop 1).dropLast, r.data.count ',' = 1) :
    ((column.drop 1).dropLast).length = column.length - 2 ∧
    reformat_names column n =
      (if n = column.length - 2
       then Except.ok (((column.drop 1).dropLast).map
         (fun r => specFirstLast (pyStrip r)))
       else Except.error NormErr.countMismatch) := by
  have hmid : ((column.drop 1).dropLast).length = column.length - 2 := by
    rw [List.length_dropLast, List.length_drop]
    omega
  refine ⟨hmid, ?_⟩
  unfold reformat_names reformat_names_core
  have hwf2 : ∀ r ∈ ((column.drop 1).dropLast).map pyStrip,
      r.data.count ',' = 1 := by
    intro r hr
    rw [List.mem_map] at hr
    obtain ⟨x, hx, rfl⟩ := hr
    rw [count_comma_pyStrip]
    exact hwf x hx
  rw [reformatAll_wellformed _ hwf2]
  show (if ((((column.drop 1).dropLast).map pyStrip).map specFirstLast).length = n
      then Except.ok ((((column.drop 1).dropLast).map pyStrip).map specFirstLast)
      else Except.error NormErr.countMismatch) = _
  rw [List.map_map, List.length_map, hmid]
  by_cases hn : n = column.length - 2
  · rw [if_pos (by omega), if_pos hn]
    rfl
  · rw [if_neg (by omega), if_neg hn]

/-- Witness for C10 at a four-entry column: the header and trailing row
are dropped and the two middle entries are normalized. -/
theorem reformat_names_row_slicing_witness :
    reformat_names ["Header", "Doe, Jane", "Smith, Bob", "Test Student"] 2 =
      Except.ok ["Jane Doe", "Bob Smith"] := by
  have h := (reformat_names_row_slicing
    ["Header", "Doe, Jane", "Smith, Bob", "Test Student"] 2
    (by decide) (by decide)).2
  rw [h]
  rfl

/-- C2: duplicate detection matches pairings order-independently — a
pairing (a, b) of one round and (b, a) of another count as the same
common pair — and on the scenario rounds the reported common pairs are
exactly the unordered pair of "Jane Doe" and "Bob Smith". -/
theorem commonPairs_order_independent :
    (∀ (r1 r2 : List (String × String)) (a b : String),
      (a, b) ∈ r1 → (b, a) ∈ r2 → (a, b) ∈ commonPairs r1 r2) ∧
    check_duplicates
      [("round 1", [("Jane Doe", "Bob Smith"), ("Alice Lee", "Sam Kim")]),
       ("round 2", [("Bob Smith", "Jane Doe"), ("Alice Lee", "Tom Fox")])]
      ["round 1", "round 2"]
      = Except.ok [("round 1", "round 2", [("Jane Doe", "Bob Smith")])] := by
  refine ⟨?_, rfl⟩
  intro r1 r2 a b h1 h2
  unfold commonPairs
  rw [List.mem_filter]
  refine ⟨h1, ?_⟩
  rw [List.any_eq_true]
  refine ⟨(b, a), h2, ?_⟩
  unfold sameSet
  simp

/-- Witness for C2: the reversed pairing ("y","x") matches ("x","y"). -/
theorem commonPairs_order_independent_witness :
    ("x", "y") ∈ commonPairs [("x", "y")] [("y", "x")] :=
  commonPairs_order_independent.1 [("x", "y")] [("y", "x")] "x" "y"
    (by decide) (by decide)

/-- C4: duplicate detection validates before comparing — with fewer than
two requested rounds it fails with the insufficient-rounds error, with at
least two requested rounds one of which is unknown it fails with the
unknown-round error naming an unknown requested round, and in either
case no comparison output is produced. -/
theorem check_duplicates_validation
    (data : List (String × List (String × String)))
    (sheet_list : List String) :
    (sheet_list.length < 2 →
      check_duplicates data sheet_list =
        Except.error DupErr.insufficientRounds) ∧
    (2 ≤ sheet_list.length →
      (∃ s ∈ sheet_list, ∀ kv ∈ data, kv.1 ≠ s) →
      ∃ s, s ∈ sheet_list ∧ (∀ kv ∈ data, kv.1 ≠ s) ∧
        check_duplicates data sheet_list =
          Except.error (DupErr.unknownRound s)) ∧
    ((sheet_list.length < 2 ∨ ∃ s ∈ sheet_list, ∀ kv ∈ data, kv.1 ≠ s) →
      ∀ out, check_duplicates data sheet_list ≠ Except.ok out) := by
  have hpred : ∀ s : String,
      (!(data.any fun kv => kv.1 == s)) = true ↔ (∀ kv ∈ data, kv.1 ≠ s) := by
    intro s
    rw [Bool.not_eq_true', List.any_eq_false]
    constructor
    · intro h kv hkv
      simpa using h kv hkv
    · intro h kv hkv
      simpa using h kv hkv
  have h1 : sheet_list.length < 2 →
      check_duplicates data sheet_list =
        Except.error DupErr.insufficientRounds := by
    intro h
    unfold check_duplicates
    rw [if_pos h]
  have h2 : 2 ≤ sheet_list.length →
      (∃ s ∈ sheet_list, ∀ kv ∈ data, kv.1 ≠ s) →
      ∃ s, s ∈ sheet_list ∧ (∀ kv ∈ data, kv.1 ≠ s) ∧
        check_duplicates data sheet_list =
          Except.error (DupErr.unknownRound s) := by
    intro hlen hex
    obtain ⟨s0, hs0, hbad0⟩ := hex
    have hsome :
        (sheet_list.find? (fun s => !(data.any fun kv => kv.1 == s))).isSome := by
      rw [List.find?_isSome]
      exact ⟨s0, hs0, (hpred s0).mpr hbad0⟩
    obtain ⟨t, ht⟩ := Option.isSome_iff_exists.mp hsome
    have hpt := List.find?_some ht
    refine ⟨t, List.mem_of_find?_eq_some ht, (hpred t).mp hpt, ?_⟩
    unfold check_duplicates
    rw [if_neg (by omega), ht]
  refine ⟨h1, h2, ?_⟩
  intro hd out hok
  rcases hd with hlt | hbad
  · rw [h1 hlt] at hok
    exact Except.noConfusion hok
  · by_cases hlen : sheet_list.length < 2
    · rw [h1 hlen] at hok
      exact Except.noConfusion hok
    · obtain ⟨t, _, _, heq⟩ := h2 (by omega) hbad
      rw [heq] at hok
      exact Except.noConfusion hok

/-- Witness for C4: a single requested round is rejected with the
insufficient-rounds error, and an unknown requested round among two is
rejected with the unknown-round error. -/
theorem check_duplicates_validation_witness :
    check_duplicates ([] : List (String × List (String × String))) ["r1"] =
      Except.error DupErr.insufficientRounds ∧
    ∃ s, s ∈ ["r1", "r2"] ∧
      (∀ kv ∈ ([("r1", [])] : List (String × List (String × String))), kv.1 ≠ s) ∧
      check_duplicates [("r1", [])] ["r1", "r2"] =
        Except.error (DupErr.unknownRound s) :=
  ⟨(check_duplicates_validation [] ["r1"]).1 (by decide),
    (check_duplicates_validation [("r1", [])] ["r1", "r2"]).2.1 (by decide)
      ⟨"r2", by decide, by decide⟩⟩

/-- C8 counterexample: two rounds that both pair "Alice" with the
empty-string placeholder make duplicate detection report that
placeholder-containing pairing as a common pair. -/
theorem check_duplicates_placeholder_reported_cex :
    check_duplicates [("r1", [("Alice", "")]), ("r2", [("Alice", "")])]
      ["r1", "r2"]
      = Except.ok [("r1", "r2", [("Alice", "")])] ∧
    ("Alice", "").2 = "" :=
  ⟨rfl, rfl⟩

/-- C8 amended: duplicate detection applies no placeholder filtering —
a pairing is reported as common exactly when it occurs in the first round
and matches some pairing of the second round order-independently, and
this holds just as well for pairings containing the empty-string
placeholder. -/
theorem commonPairs_no_placeholder_filter :
    (∀ (r1 r2 : List (String × String)) (p : String × String),
      p ∈ commonPairs r1 r2 ↔ p ∈ r1 ∧ ∃ q ∈ r2, sameSet p q = true) ∧
    ("Alice", "") ∈ commonPairs [("Alice", "")] [("", "Alice")] := by
  constructor
  · intro r1 r2 p
    unfold commonPairs
    rw [List.mem_filter, List.any_eq_true]
  · decide

/-- Witness for C8 (amended): a placeholder-containing pairing present in
both rounds is a member of the reported common pairs. -/
theorem commonPairs_no_placeholder_filter_witness :
    ("Bob", "") ∈ commonPairs [("Bob", "")] [("Bob", "")] :=
  (commonPairs_no_placeholder_filter.1 [("Bob", "")] [("Bob", "")]
    ("Bob", "")).mpr ⟨by decide, ("Bob", ""), by decide, by decide⟩

end StudentsExcel
